import Mathlib

/-
  Verification development for the video2ascii repository.

  The definitions below are shallow embeddings of the program's data model
  and per-frame operations: the fragment-shader arithmetic (brightness,
  audio modulation, glyph-index mapping), the grid-dimension computation,
  the character-atlas builder, the uniform-setter registry (a JS Map keyed
  by string id), the ripple and mouse-trail effect state machines, and the
  render-loop scheduling discipline.  Real numbers are modelled by ℚ
  (shader floats carry exact decimal constants here), JS arrays by lists,
  and the JS Map by an insertion-ordered association list.
-/

namespace Video2Ascii

/-- GLSL mix(a, b, t) = a·(1−t) + b·t, the linear interpolation used by the
fragment shader. -/
def glslMix (a b t : ℚ) : ℚ := a * (1 - t) + b * t

/-- Fragment shader: float charIndex = floor(brightness * (u_numChars - 0.001)).
Maps a brightness value to the index of the glyph cell in the atlas strip. -/
def charIndex (brightness numChars : ℚ) : ℤ :=
  ⌊brightness * (numChars - 1/1000)⌋

/-- Fragment shader: float audioMultiplier = mix(0.3, 5.0, u_audioLevel). -/
def audioMultiplier (audioLevel : ℚ) : ℚ := glslMix (3/10) 5 audioLevel

/-- Fragment shader: float audioModulated = baseBrightness * audioMultiplier. -/
def audioModulated (baseBrightness audioLevel : ℚ) : ℚ :=
  baseBrightness * audioMultiplier audioLevel

/-- Fragment shader:
float brightness = mix(baseBrightness, audioModulated, u_audioReactivity). -/
def modulatedBrightness (baseBrightness audioLevel audioReactivity : ℚ) : ℚ :=
  glslMix baseBrightness (audioModulated baseBrightness audioLevel) audioReactivity

/-- The GridDimensions record of src/lib/webgl/types.ts: grid columns and rows. -/
structure GridDimensions where
  cols : ℚ
  rows : ℤ
deriving DecidableEq, Repr

/-- utils.ts calculateGridDimensions(videoWidth, videoHeight, cols):
aspect = videoWidth / videoHeight; rows = Math.round(cols / aspect / 2)
(the division by 2 corrects for characters being about twice as tall as
wide).  JS Math.round is round-half-up, which is Mathlib's round on ℚ. -/
def calculateGridDimensions (videoWidth videoHeight cols : ℚ) : GridDimensions :=
  let aspect := videoWidth / videoHeight
  { cols := cols, rows := round (cols / aspect / 2) }

/-- VideoToAscii.tsx renders the hidden video element with
muted=(audioEffect === 0). -/
def videoMuted (audioEffect : ℚ) : Bool := audioEffect == 0

/-- One fillText draw command recorded while building the atlas: the glyph
string and the centre of its cell on the strip. -/
structure AtlasDraw where
  glyph : String
  x : ℚ
  y : ℚ
deriving DecidableEq, Repr

/-- The offscreen raster strip produced by createAsciiAtlas before upload. -/
structure AsciiAtlas where
  width : ℕ
  height : ℕ
  draws : List AtlasDraw
deriving DecidableEq, Repr

/-- utils.ts createAsciiAtlas(gl, chars, charSize): an offscreen canvas of
width charSize * chars.length and height charSize, with chars[i] drawn
centred in cell i (fillText at x = i*charSize + charSize/2, y = charSize/2).
Each glyph is one element of the chars array, so a multi-codepoint Unicode
glyph still occupies exactly one cell. -/
def createAsciiAtlas (chars : List String) (charSize : ℕ) : AsciiAtlas :=
  { width := charSize * chars.length
    height := charSize
    draws := (List.range chars.length).zip chars |>.map fun p =>
      { glyph := p.2
        x := (p.1 : ℚ) * charSize + (charSize : ℚ) / 2
        y := (charSize : ℚ) / 2 } }

/-- Number of glyph cells actually drawn into the atlas strip. -/
def AsciiAtlas.glyphCount (a : AsciiAtlas) : ℕ := a.draws.length

/-- types.ts Ripple: normalized click origin and spawn time in seconds. -/
structure Ripple where
  x : ℚ
  y : ℚ
  startTime : ℚ
deriving DecidableEq, Repr

/-- Fixed capacity of the ripple uniform array (u_ripples has 8 slots). -/
def MAX_RIPPLES : ℕ := 8

/-- useAsciiRipple onClick: ripplesRef.current.unshift(newRipple), then if
the array length exceeds MAX_RIPPLES pop the last (oldest) entry.  The list
holds ripples most-recent-first. -/
def spawnRipple (r : Ripple) (ripples : List Ripple) : List Ripple :=
  if MAX_RIPPLES < (r :: ripples).length then (r :: ripples).dropLast
  else r :: ripples

/-- The uniform-setter registry of useVideoToAscii is a JS
Map<string, UniformSetter>, embedded as an insertion-ordered association
list; setters are abstracted by a tag of type α. -/
def Registry (α : Type) : Type := List (String × α)

/-- JS Map.prototype.set: replace the value in place when the key exists
(insertion position kept), otherwise append a new entry. -/
def mapSet {α : Type} (m : Registry α) (k : String) (v : α) : Registry α :=
  match m with
  | [] => [(k, v)]
  | (k0, v0) :: rest =>
      if k0 = k then (k, v) :: rest else (k0, v0) :: mapSet rest k v

/-- JS Map.prototype.delete: remove the entry with the given key, if any. -/
def mapDelete {α : Type} (m : Registry α) (k : String) : Registry α :=
  match m with
  | [] => []
  | (k0, v0) :: rest =>
      if k0 = k then rest else (k0, v0) :: mapDelete rest k

/-- Insertion-ordered key list of the registry. -/
def registryKeys {α : Type} (m : Registry α) : List String :=
  match m with
  | [] => []
  | (k0, _) :: rest => k0 :: registryKeys rest

/-- The render loop's per-frame iteration
for (const setter of uniformSettersRef.current.values()) setter(gl, ...):
each registered entry is invoked once, in insertion order. -/
def invokedSetters {α : Type} (m : Registry α) : List (String × α) :=
  match m with
  | [] => []
  | e :: rest => e :: invokedSetters rest

/-- Mutable state of useAsciiMouseEffect: mouseRef (normalized position,
sentinel (−1,−1) when the cursor is outside) and trailRef (previous
positions, most recent first). -/
structure MouseState where
  mouse : ℚ × ℚ
  trail : List (ℚ × ℚ)
deriving DecidableEq, Repr

/-- Container events handled by useAsciiMouseEffect. -/
inductive MouseEvent where
  | move (x y : ℚ)
  | leave
deriving DecidableEq, Repr

/-- Initial mouse-effect state: mouseRef = (−1,−1), trailRef = []. -/
def initMouseState : MouseState := { mouse := (-1, -1), trail := [] }

/-- useAsciiMouseEffect event handlers.  onMouseMove (guarded by
enabledRef): when the previous mouse x is ≥ 0, unshift the previous
position onto the trail and pop the last entry if the trail exceeds
trailLength; then store the new position.  onMouseLeave (no enabled
guard in the code): reset mouseRef to the (−1,−1) sentinel and clear the
trail. -/
def stepMouse (enabled : Bool) (trailLength : ℕ) (s : MouseState) :
    MouseEvent → MouseState
  | MouseEvent.move x y =>
      if enabled then
        { mouse := (x, y)
          trail :=
            if 0 ≤ s.mouse.1 then
              if trailLength < (s.mouse :: s.trail).length then
                (s.mouse :: s.trail).dropLast
              else s.mouse :: s.trail
            else s.trail }
      else s
  | MouseEvent.leave => { mouse := (-1, -1), trail := [] }

/-- Folding a sequence of container events through the handlers. -/
def runMouse (enabled : Bool) (trailLength : ℕ) (s : MouseState)
    (evs : List MouseEvent) : MouseState :=
  evs.foldl (stepMouse enabled trailLength) s

/-- Whether an effect callback returns normally or throws when the render
loop invokes it. -/
inductive SetterBehavior where
  | ok
  | throws
deriving DecidableEq, Repr

/-- The setter loop of render(): invoke each registered setter in order;
there is no try/catch, so the first throw propagates out of render().
Returns the ids invoked (a throwing setter is entered, then unwinds) and
whether the loop ran to completion. -/
def runSetters : List (String × SetterBehavior) → List String × Bool
  | [] => ([], true)
  | (id, SetterBehavior.ok) :: rest =>
      (id :: (runSetters rest).1, (runSetters rest).2)
  | (id, SetterBehavior.throws) :: _ => ([id], false)

/-- Observable outcome of one render() tick. -/
structure TickResult where
  invoked : List String
  drawCalls : ℕ
  scheduledNext : Bool
  registryAfter : List (String × SetterBehavior)
deriving DecidableEq, Repr

/-- One render() tick: run the setter loop; the gl.drawArrays call and the
requestAnimationFrame(render) reschedule sit after the loop, so both are
reached only when no setter threw.  render() never writes the registry. -/
def renderTick (m : List (String × SetterBehavior)) : TickResult :=
  { invoked := (runSetters m).1
    drawCalls := if (runSetters m).2 then 1 else 0
    scheduledNext := (runSetters m).2
    registryAfter := m }

/-- Ids invoked on the following tick: if the previous tick rescheduled,
render() runs again over the (unchanged) registry; otherwise no tick
fires. -/
def invokedOnNextTick (t : TickResult) : List String :=
  if t.scheduledNext then (renderTick t.registryAfter).invoked else []

/-- Render-loop scheduling state of useVideoToAscii: the video transport
flags, whether an animation frame is pending, and counters for texture
uploads and draw calls performed so far. -/
structure RenderLoopState where
  paused : Bool
  ended : Bool
  pending : Bool
  uploads : ℕ
  draws : ℕ
deriving DecidableEq, Repr

/-- Events driving the loop: the video element's play / pause / ended
events and the firing of a pending animation frame. -/
inductive MediaEvent where
  | play
  | pause
  | ended
  | tick
deriving DecidableEq, Repr

/-- One step of the loop.  handlePlay: setIsPlaying(true) and
requestAnimationFrame(render).  handlePause / ended handling:
setIsPlaying(false) and cancelAnimationFrame.  A pending tick runs
render(): it aborts before the texture upload and draw call when the
source is paused or ended (and does not reschedule); otherwise it uploads
the frame, draws, and schedules the next tick. -/
def stepLoop (s : RenderLoopState) : MediaEvent → RenderLoopState
  | MediaEvent.play => { s with paused := false, ended := false, pending := true }
  | MediaEvent.pause => { s with paused := true, pending := false }
  | MediaEvent.ended => { s with ended := true, pending := false }
  | MediaEvent.tick =>
      if s.pending then
        if s.paused || s.ended then { s with pending := false }
        else { s with uploads := s.uploads + 1, draws := s.draws + 1,
                      pending := true }
      else s

/-- Folding a sequence of media events through the loop. -/
def runLoop (s : RenderLoopState) (evs : List MediaEvent) : RenderLoopState :=
  evs.foldl stepLoop s

end Video2Ascii

open Video2Ascii

/-- C1: the brightness-to-glyph-index mapping charIndex L n = ⌊L·(n − 0.001)⌋
is monotonic non-decreasing in L, and for every L ∈ [0,1] and every glyph
count n ≥ 1 the computed index lies between 0 and n − 1 inclusive. -/
theorem charIndex_monotone_and_in_range (n : ℕ) (L1 L2 L : ℚ)
    (hn : 1 ≤ n) (h1 : 0 ≤ L1) (h12 : L1 < L2) (h2 : L2 ≤ 1)
    (hL0 : 0 ≤ L) (hL1 : L ≤ 1) :
    charIndex L1 (n : ℚ) ≤ charIndex L2 (n : ℚ) ∧
    0 ≤ charIndex L (n : ℚ) ∧ charIndex L (n : ℚ) ≤ (n : ℤ) - 1 := by
  have hfac : (0 : ℚ) ≤ (n : ℚ) - 1/1000 := by
    have : (1 : ℚ) ≤ (n : ℚ) := by exact_mod_cast hn
    linarith
  refine ⟨?_, ?_, ?_⟩
  · apply Int.floor_le_floor
    exact mul_le_mul_of_nonneg_right (le_of_lt h12) hfac
  · unfold charIndex
    rw [Int.floor_nonneg]
    exact mul_nonneg hL0 hfac
  · unfold charIndex
    have hlt : L * ((n : ℚ) - 1/1000) < (n : ℚ) := by
      have hle : L * ((n : ℚ) - 1/1000) ≤ (n : ℚ) - 1/1000 := by
        nlinarith
      linarith
    have : ⌊L * ((n : ℚ) - 1/1000)⌋ < (n : ℤ) := by
      rw [Int.floor_lt]
      exact_mod_cast hlt
    omega

/-- Witness for C1 at the spec's own scenario: a 10-glyph charset and
luminances 0.5 < 0.95; the index of 0.95 is ⌊0.95·9.999⌋ = 9 = 10 − 1. -/
theorem charIndex_monotone_and_in_range_witness :
    charIndex (1/2) ((10 : ℕ) : ℚ) ≤ charIndex (19/20) ((10 : ℕ) : ℚ) ∧
    0 ≤ charIndex (19/20) ((10 : ℕ) : ℚ) ∧
    charIndex (19/20) ((10 : ℕ) : ℚ) ≤ ((10 : ℕ) : ℤ) - 1 :=
  charIndex_monotone_and_in_range 10 (1/2) (19/20) (19/20)
    (by norm_num) (by norm_num) (by norm_num) (by norm_num)
    (by norm_num) (by norm_num)

/-- C2 fails as stated: at source 16×9 with cols = 1 the computed rows is
round(1 / (16/9) / 2) = round(9/32) = 0, not ≥ 1. -/
theorem calculateGridDimensions_rows_zero_at_cols_one :
    (calculateGridDimensions 16 9 1).rows = 0 ∧
    ¬ 1 ≤ (calculateGridDimensions 16 9 1).rows := by
  have h : (calculateGridDimensions 16 9 1).rows = 0 := by
    show round ((1 : ℚ) / (16 / 9) / 2) = 0
    rw [show (1 : ℚ) / (16 / 9) / 2 = 9 / 32 by norm_num]
    rw [round_eq]
    rw [show (9 : ℚ) / 32 + 1 / 2 = 25 / 32 by norm_num]
    rw [Int.floor_eq_zero_iff, Set.mem_Ico]
    norm_num
  exact ⟨h, by omega⟩

/-- C2 (amended): calculateGridDimensions returns cols unchanged and
rows = round(cols / (width/height) / 2); the result is deterministic, and
rows ≥ 1 holds whenever cols·height ≥ width (equivalently cols is at least
the source aspect ratio) rather than for every cols ≥ 1. -/
theorem calculateGridDimensions_spec (w h c : ℚ)
    (hw : 0 < w) (hh : 0 < h) (hc : 1 ≤ c) (hch : w ≤ c * h) :
    (calculateGridDimensions w h c).cols = c ∧
    (calculateGridDimensions w h c).rows = round (c / (w / h) / 2) ∧
    1 ≤ (calculateGridDimensions w h c).rows ∧
    calculateGridDimensions w h c = calculateGridDimensions w h c := by
  refine ⟨rfl, rfl, ?_, rfl⟩
  have haux : (1 : ℚ) ≤ c / (w / h) := by
    rw [div_div_eq_mul_div, one_le_div hw]
    exact hch
  show 1 ≤ round (c / (w / h) / 2)
  rw [round_eq, Int.le_floor]
  push_cast
  linarith

/-- Witness for C2 (amended) at a 16:9 source with 80 columns. -/
theorem calculateGridDimensions_spec_witness :
    (calculateGridDimensions 16 9 80).cols = 80 ∧
    (calculateGridDimensions 16 9 80).rows = round ((80 : ℚ) / (16 / 9) / 2) ∧
    1 ≤ (calculateGridDimensions 16 9 80).rows ∧
    calculateGridDimensions 16 9 80 = calculateGridDimensions 16 9 80 :=
  calculateGridDimensions_spec 16 9 80 (by norm_num) (by norm_num)
    (by norm_num) (by norm_num)

/-- C5: with audioLevel = 0 and audioReactivity = 1 the audio-modulated
brightness equals baseBrightness · 0.3 (the silence floor), for every base
luminance, because audioMultiplier = mix(0.3, 5.0, audioLevel) and the
result is mix(L, L·multiplier, audioReactivity). -/
theorem modulatedBrightness_silence_floor (L : ℚ) :
    modulatedBrightness L 0 1 = L * (3/10) := by
  unfold modulatedBrightness audioModulated audioMultiplier glslMix
  ring

/-- C8: createAsciiAtlas is a pure function of the charset glyphs and the
glyph pixel size; the atlas draws exactly one cell per input glyph (in
order, so multi-codepoint Unicode glyph strings occupy one cell each), its
strip width is glyphSize × glyphCount and its height is glyphSize. -/
theorem createAsciiAtlas_spec (chars : List String) (charSize : ℕ) :
    (createAsciiAtlas chars charSize).glyphCount = chars.length ∧
    (createAsciiAtlas chars charSize).width = charSize * chars.length ∧
    (createAsciiAtlas chars charSize).height = charSize ∧
    (createAsciiAtlas chars charSize).draws.map AtlasDraw.glyph = chars ∧
    createAsciiAtlas chars charSize = createAsciiAtlas chars charSize := by
  refine ⟨?_, rfl, rfl, ?_, rfl⟩
  · simp [createAsciiAtlas, AsciiAtlas.glyphCount, List.length_zip]
  · simp only [createAsciiAtlas, List.map_map]
    have : (AtlasDraw.glyph ∘ fun p : ℕ × String =>
        AtlasDraw.mk p.2 ((p.1 : ℚ) * charSize + (charSize : ℚ) / 2)
          ((charSize : ℚ) / 2)) = Prod.snd := by
      funext p
      rfl
    rw [this]
    exact List.map_snd_zip _ _ (by simp)

/-- C10: the hidden video element's muted attribute is true exactly when
the audioEffect prop equals 0 (muted = (audioEffect === 0)). -/
theorem videoMuted_iff_audioEffect_zero (audioEffect : ℚ) :
    videoMuted audioEffect = true ↔ audioEffect = 0 := by
  simp [videoMuted]

/-- C7: with 8 ripples active, spawning a 9th evicts the oldest (last)
entry and nothing else: the store becomes the new ripple followed by the
7 most recent old ones in order, holds exactly 8 entries, and the
capacity bound 8 is an invariant of spawning; eviction is never an error. -/
theorem spawnRipple_capacity (r : Ripple) (l : List Ripple)
    (h8 : l.length = MAX_RIPPLES) :
    spawnRipple r l = r :: l.dropLast ∧
    (spawnRipple r l).length = MAX_RIPPLES ∧
    (∀ hne : l ≠ [], spawnRipple r l ++ [l.getLast hne] = r :: l) ∧
    ∀ l2 : List Ripple, l2.length ≤ MAX_RIPPLES →
      (spawnRipple r l2).length ≤ MAX_RIPPLES := by
  have hne : l ≠ [] := by
    intro hnil
    rw [hnil] at h8
    simp [MAX_RIPPLES] at h8
  have hmain : spawnRipple r l = r :: l.dropLast := by
    unfold spawnRipple
    have hlt : MAX_RIPPLES < (r :: l).length := by
      simp [h8]
    rw [if_pos hlt]
    obtain ⟨x, xs, rfl⟩ : ∃ x xs, l = x :: xs := by
      cases l with
      | nil => exact absurd rfl hne
      | cons x xs => exact ⟨x, xs, rfl⟩
    rfl
  refine ⟨hmain, ?_, ?_, ?_⟩
  · rw [hmain]
    simp only [List.length_cons, List.length_dropLast, h8, MAX_RIPPLES]
  · intro hne2
    rw [hmain, List.cons_append]
    congr 1
    exact List.dropLast_append_getLast hne2
  · intro l2 hl2
    unfold spawnRipple
    split
    · simpa [List.length_dropLast] using hl2
    · rename_i hnotlt
      simp only [List.length_cons] at hnotlt ⊢
      omega

/-- A concrete store of 8 ripples used to witness C7. -/
def rippleList8 : List Ripple :=
  [⟨8, 8, 8⟩, ⟨7, 7, 7⟩, ⟨6, 6, 6⟩, ⟨5, 5, 5⟩,
   ⟨4, 4, 4⟩, ⟨3, 3, 3⟩, ⟨2, 2, 2⟩, ⟨1, 1, 1⟩]

/-- Witness for C7: spawning a 9th ripple onto a concrete 8-entry store. -/
theorem spawnRipple_capacity_witness :
    spawnRipple ⟨0, 0, 9⟩ rippleList8 = ⟨0, 0, 9⟩ :: rippleList8.dropLast ∧
    (spawnRipple ⟨0, 0, 9⟩ rippleList8).length = MAX_RIPPLES ∧
    (∀ hne : rippleList8 ≠ [],
      spawnRipple ⟨0, 0, 9⟩ rippleList8 ++ [rippleList8.getLast hne]
        = ⟨0, 0, 9⟩ :: rippleList8) ∧
    ∀ l2 : List Ripple, l2.length ≤ MAX_RIPPLES →
      (spawnRipple ⟨0, 0, 9⟩ l2).length ≤ MAX_RIPPLES :=
  spawnRipple_capacity ⟨0, 0, 9⟩ rippleList8 rfl

/-- Entries of a registry whose key misses every entry filter to nothing. -/
theorem filter_eq_nil_of_key_not_mem {α : Type} (m : Registry α) (k : String)
    (h : k ∉ registryKeys m) :
    (invokedSetters m).filter (fun e => e.1 == k) = [] := by
  induction m with
  | nil => rfl
  | cons e rest ih =>
      obtain ⟨k0, v0⟩ := e
      simp only [registryKeys, List.mem_cons, not_or] at h
      simp only [invokedSetters, List.filter_cons]
      rw [if_neg (by simpa using Ne.symm h.1)]
      exact ih h.2

/-- mapSet can only add its own key to the key set. -/
theorem mem_registryKeys_mapSet {α : Type} (m : Registry α) (k a : String)
    (v : α) (h : a ∈ registryKeys (mapSet m k v)) :
    a = k ∨ a ∈ registryKeys m := by
  induction m with
  | nil =>
      simp only [mapSet, registryKeys, List.mem_singleton] at h
      exact Or.inl h
  | cons e rest ih =>
      obtain ⟨k0, v0⟩ := e
      simp only [mapSet] at h
      by_cases hk : k0 = k
      · rw [if_pos hk] at h
        simp only [registryKeys, List.mem_cons] at h ⊢
        rcases h with h | h
        · exact Or.inl h
        · exact Or.inr (Or.inr h)
      · rw [if_neg hk] at h
        simp only [registryKeys, List.mem_cons] at h ⊢
        rcases h with h | h
        · exact Or.inr (Or.inl h)
        · rcases ih h with h | h
          · exact Or.inl h
          · exact Or.inr (Or.inr h)

/-- mapSet keeps registry keys duplicate-free. -/
theorem registryKeys_mapSet_nodup {α : Type} (m : Registry α) (k : String)
    (v : α) (hnd : (registryKeys m).Nodup) :
    (registryKeys (mapSet m k v)).Nodup := by
  induction m with
  | nil => simp [mapSet, registryKeys]
  | cons e rest ih =>
      obtain ⟨k0, v0⟩ := e
      simp only [registryKeys, List.nodup_cons] at hnd
      simp only [mapSet]
      by_cases hk : k0 = k
      · rw [if_pos hk]
        simp only [registryKeys, List.nodup_cons]
        exact ⟨hk ▸ hnd.1, hnd.2⟩
      · rw [if_neg hk]
        simp only [registryKeys, List.nodup_cons]
        refine ⟨?_, ih hnd.2⟩
        intro hmem
        rcases mem_registryKeys_mapSet rest k k0 v hmem with h | h
        · exact hk h
        · exact hnd.1 h

/-- Deleting a key removes it from the key set when keys are unique. -/
theorem key_not_mem_mapDelete {α : Type} (m : Registry α) (k : String)
    (hnd : (registryKeys m).Nodup) :
    k ∉ registryKeys (mapDelete m k) := by
  induction m with
  | nil => simp [mapDelete, registryKeys]
  | cons e rest ih =>
      obtain ⟨k0, v0⟩ := e
      simp only [registryKeys, List.nodup_cons] at hnd
      simp only [mapDelete]
      by_cases hk : k0 = k
      · rw [if_pos hk]
        exact hk ▸ hnd.1
      · rw [if_neg hk]
        simp only [registryKeys, List.mem_cons, not_or]
        exact ⟨fun h => hk h.symm, ih hnd.2⟩

/-- Re-registering under the same key overwrites: the first registration
leaves no residue. -/
theorem mapSet_mapSet_same {α : Type} (m : Registry α) (k : String)
    (A B : α) : mapSet (mapSet m k A) k B = mapSet m k B := by
  induction m with
  | nil => simp [mapSet]
  | cons e rest ih =>
      obtain ⟨k0, v0⟩ := e
      by_cases hk : k0 = k
      · simp [mapSet, hk]
      · simp only [mapSet, if_neg hk]
        rw [ih]

/-- After registering under key k, the entries invoked for k on a tick are
exactly one invocation of the registered setter (keys duplicate-free). -/
theorem filter_invokedSetters_mapSet {α : Type} (m : Registry α)
    (k : String) (B : α) (hnd : (registryKeys m).Nodup) :
    (invokedSetters (mapSet m k B)).filter (fun e => e.1 == k) = [(k, B)] := by
  induction m with
  | nil => simp [mapSet, invokedSetters]
  | cons e rest ih =>
      obtain ⟨k0, v0⟩ := e
      simp only [registryKeys, List.nodup_cons] at hnd
      by_cases hk : k0 = k
      · simp only [mapSet, if_pos hk, invokedSetters, List.filter_cons]
        rw [if_pos (by simp)]
        rw [filter_eq_nil_of_key_not_mem rest k (hk ▸ hnd.1)]
      · simp only [mapSet, if_neg hk, invokedSetters, List.filter_cons]
        rw [if_neg (by simpa using hk)]
        exact ih hnd.2

/-- Deleting an absent key is a no-op on the registry. -/
theorem mapDelete_absent {α : Type} (m : Registry α) (k : String)
    (h : k ∉ registryKeys m) : mapDelete m k = m := by
  induction m with
  | nil => rfl
  | cons e rest ih =>
      obtain ⟨k0, v0⟩ := e
      simp only [registryKeys, List.mem_cons, not_or] at h
      simp only [mapDelete]
      rw [if_neg fun hk : k0 = k => h.1 hk.symm, ih h.2]

/-- C6: the uniform-setter registry behaves as a map keyed by id.
Registering A then B under one id leaves B (the second registration
replaces the first), and the next tick invokes exactly one setter under
that id, namely B; registering then unregistering an id leaves the next
tick with zero invocations under that id; unregistering an absent id
leaves the registry unchanged (not an error). -/
theorem registry_map_contract {α : Type} (m : Registry α) (k : String)
    (A B : α) (hnd : (registryKeys m).Nodup) :
    mapSet (mapSet m k A) k B = mapSet m k B ∧
    (invokedSetters (mapSet (mapSet m k A) k B)).filter (fun e => e.1 == k)
      = [(k, B)] ∧
    (invokedSetters (mapDelete (mapSet m k A) k)).filter (fun e => e.1 == k)
      = [] ∧
    (k ∉ registryKeys m → mapDelete m k = m) := by
  refine ⟨mapSet_mapSet_same m k A B, ?_, ?_, mapDelete_absent m k⟩
  · rw [mapSet_mapSet_same m k A B]
    exact filter_invokedSetters_mapSet m k B hnd
  · apply filter_eq_nil_of_key_not_mem
    apply key_not_mem_mapDelete
    exact registryKeys_mapSet_nodup m k A hnd

/-- Witness for C6 on a concrete registry holding one unrelated setter:
registering tag 1 then tag 2 under the id mouse, with unrelated id ripple
already present. -/
theorem registry_map_contract_witness :
    mapSet (mapSet [(("ripple" : String), (0 : ℕ))] ("mouse") 1) ("mouse") 2
      = mapSet [(("ripple" : String), (0 : ℕ))] ("mouse") 2 ∧
    (invokedSetters
        (mapSet (mapSet [(("ripple" : String), (0 : ℕ))] ("mouse") 1)
          ("mouse") 2)).filter (fun e => e.1 == ("mouse" : String))
      = [(("mouse" : String), 2)] ∧
    (invokedSetters
        (mapDelete (mapSet [(("ripple" : String), (0 : ℕ))] ("mouse") 1)
          ("mouse"))).filter (fun e => e.1 == ("mouse" : String))
      = [] ∧
    (("mouse" : String) ∉ registryKeys [(("ripple" : String), (0 : ℕ))] →
      mapDelete [(("ripple" : String), (0 : ℕ))] ("mouse")
        = [(("ripple" : String), (0 : ℕ))]) :=
  registry_map_contract [(("ripple" : String), (0 : ℕ))] ("mouse") 1 2
    (by simp [registryKeys])

/-- The trail-length bound is an invariant of the mouse handlers. -/
theorem runMouse_trail_length_le (e : Bool) (tl : ℕ) :
    ∀ (evs : List MouseEvent) (s : MouseState), s.trail.length ≤ tl →
      (runMouse e tl s evs).trail.length ≤ tl := by
  intro evs
  induction evs with
  | nil => intro s h; exact h
  | cons ev rest ih =>
      intro s h
      have hstep : (stepMouse e tl s ev).trail.length ≤ tl := by
        cases ev with
        | move x y =>
            simp only [stepMouse]
            split_ifs with h1 h2 h3
            · simp only [List.length_dropLast, List.length_cons]
              omega
            · simp only [List.length_cons] at h3 ⊢
              omega
            · exact h
            · exact h
        | leave => simp [stepMouse]
      exact ih (stepMouse e tl s ev) hstep

/-- C9: after any sequence of onMouseMove / onMouseLeave events from the
initial state, the trail never exceeds trailLength; a trailing
onMouseLeave leaves the sentinel position (−1,−1) and an empty trail (so
no glow is contributed); a position is only pushed onto the trail when
the previous mouse x is ≥ 0, so the first move after a leave adds
nothing. -/
theorem mouseEffect_invariants (enabled : Bool) (trailLength : ℕ) :
    (∀ evs : List MouseEvent,
      (runMouse enabled trailLength initMouseState evs).trail.length
        ≤ trailLength) ∧
    (∀ evs : List MouseEvent,
      runMouse enabled trailLength initMouseState (evs ++ [MouseEvent.leave])
        = initMouseState) ∧
    (∀ (s : MouseState) (x y : ℚ), s.mouse.1 < 0 →
      (stepMouse enabled trailLength s (MouseEvent.move x y)).trail
        = s.trail) ∧
    (∀ (evs : List MouseEvent) (x y : ℚ),
      (runMouse enabled trailLength initMouseState
        (evs ++ [MouseEvent.leave, MouseEvent.move x y])).trail = []) := by
  have hmoveSent : ∀ x y : ℚ,
      (stepMouse enabled trailLength initMouseState (MouseEvent.move x y)).trail
        = [] := by
    intro x y
    cases enabled with
    | false => rfl
    | true =>
        simp only [stepMouse, initMouseState]
        norm_num
  refine ⟨?_, ?_, ?_, ?_⟩
  · intro evs
    exact runMouse_trail_length_le enabled trailLength evs initMouseState
      (by simp [initMouseState])
  · intro evs
    rw [runMouse, List.foldl_append]
    rfl
  · intro s x y hneg
    simp only [stepMouse]
    split_ifs with h1 h2 <;> first | linarith | rfl
  · intro evs x y
    rw [runMouse, List.foldl_append]
    show (stepMouse enabled trailLength
      (stepMouse enabled trailLength _ MouseEvent.leave)
        (MouseEvent.move x y)).trail = []
    exact hmoveSent x y

/-- Witness for C9 at enabled = true, trailLength = 24, on concrete event
sequences. -/
theorem mouseEffect_invariants_witness :
    (runMouse true 24 initMouseState
      [MouseEvent.move (1/2) (1/2)]).trail.length ≤ 24 ∧
    runMouse true 24 initMouseState
      ([MouseEvent.move (1/2) (1/2)] ++ [MouseEvent.leave]) = initMouseState ∧
    (stepMouse true 24 initMouseState (MouseEvent.move (1/4) (1/4))).trail
      = initMouseState.trail ∧
    (runMouse true 24 initMouseState
      ([MouseEvent.move (1/2) (1/2)] ++
        [MouseEvent.leave, MouseEvent.move (1/3) (1/3)])).trail = [] :=
  ⟨(mouseEffect_invariants true 24).1 [MouseEvent.move (1/2) (1/2)],
   (mouseEffect_invariants true 24).2.1 [MouseEvent.move (1/2) (1/2)],
   (mouseEffect_invariants true 24).2.2.1 initMouseState (1/4) (1/4)
     (by norm_num [initMouseState]),
   (mouseEffect_invariants true 24).2.2.2 [MouseEvent.move (1/2) (1/2)]
     (1/3) (1/3)⟩

/-- A registry whose first setter throws, followed by a healthy one. -/
def throwingRegistry : List (String × SetterBehavior) :=
  [(("a" : String), SetterBehavior.throws), (("b" : String), SetterBehavior.ok)]

/-- C3 fails as stated: with setter a throwing and setter b registered
after it, b is not invoked on tick N, and since render() never reaches
requestAnimationFrame no callback at all runs on tick N+1; the frame's
draw call is also lost. -/
theorem effectThrow_not_isolated :
    ("b" : String) ∉ (renderTick throwingRegistry).invoked ∧
    invokedOnNextTick (renderTick throwingRegistry) = [] ∧
    (renderTick throwingRegistry).drawCalls = 0 := by
  refine ⟨?_, rfl, rfl⟩
  decide

/-- The setter loop stops at the first throwing setter. -/
theorem runSetters_append_throws (pre post : List (String × SetterBehavior))
    (id : String) (hpre : ∀ e ∈ pre, e.2 = SetterBehavior.ok) :
    runSetters (pre ++ (id, SetterBehavior.throws) :: post)
      = (pre.map Prod.fst ++ [id], false) := by
  induction pre with
  | nil => rfl
  | cons e rest ih =>
      obtain ⟨k, b⟩ := e
      have hb : b = SetterBehavior.ok := hpre (k, b) (List.mem_cons_self _ _)
      subst hb
      simp only [List.cons_append, runSetters, List.append_eq]
      rw [ih fun e he => hpre e (List.mem_cons_of_mem _ he)]
      simp

/-- C3 (amended): a callback that throws on tick N lets every callback
registered before it run on tick N, but the callbacks after it are
skipped, the draw call is skipped, no tick N+1 is scheduled (so nothing
runs on tick N+1 until an external play event restarts the loop), and the
registry itself is left intact. -/
theorem effectThrow_aborts_frame (pre post : List (String × SetterBehavior))
    (id : String) (hpre : ∀ e ∈ pre, e.2 = SetterBehavior.ok) :
    (renderTick (pre ++ (id, SetterBehavior.throws) :: post)).invoked
      = pre.map Prod.fst ++ [id] ∧
    (renderTick (pre ++ (id, SetterBehavior.throws) :: post)).drawCalls = 0 ∧
    (renderTick (pre ++ (id, SetterBehavior.throws) :: post)).scheduledNext
      = false ∧
    (renderTick (pre ++ (id, SetterBehavior.throws) :: post)).registryAfter
      = pre ++ (id, SetterBehavior.throws) :: post ∧
    invokedOnNextTick (renderTick (pre ++ (id, SetterBehavior.throws) :: post))
      = [] := by
  have h := runSetters_append_throws pre post id hpre
  refine ⟨?_, ?_, ?_, rfl, ?_⟩
  · show (runSetters (pre ++ (id, SetterBehavior.throws) :: post)).1 = _
    rw [h]
  · show (if (runSetters (pre ++ (id, SetterBehavior.throws) :: post)).2
      then 1 else 0) = 0
    rw [h]
    rfl
  · show (runSetters (pre ++ (id, SetterBehavior.throws) :: post)).2 = false
    rw [h]
  · show (if (renderTick (pre ++ (id, SetterBehavior.throws) :: post)).scheduledNext
      then _ else []) = []
    have h2 : (renderTick (pre ++ (id, SetterBehavior.throws) :: post)).scheduledNext
        = false := by
      show (runSetters (pre ++ (id, SetterBehavior.throws) :: post)).2 = false
      rw [h]
    rw [h2]
    rfl

/-- Witness for C3 (amended): a healthy setter m, a throwing setter r,
then a healthy setter s. -/
theorem effectThrow_aborts_frame_witness :
    (renderTick ([(("m" : String), SetterBehavior.ok)] ++
      (("r" : String), SetterBehavior.throws) ::
        [(("s" : String), SetterBehavior.ok)])).invoked
      = [(("m" : String), SetterBehavior.ok)].map Prod.fst
          ++ [("r" : String)] ∧
    (renderTick ([(("m" : String), SetterBehavior.ok)] ++
      (("r" : String), SetterBehavior.throws) ::
        [(("s" : String), SetterBehavior.ok)])).drawCalls = 0 ∧
    (renderTick ([(("m" : String), SetterBehavior.ok)] ++
      (("r" : String), SetterBehavior.throws) ::
        [(("s" : String), SetterBehavior.ok)])).scheduledNext = false ∧
    (renderTick ([(("m" : String), SetterBehavior.ok)] ++
      (("r" : String), SetterBehavior.throws) ::
        [(("s" : String), SetterBehavior.ok)])).registryAfter
      = [(("m" : String), SetterBehavior.ok)] ++
          (("r" : String), SetterBehavior.throws) ::
            [(("s" : String), SetterBehavior.ok)] ∧
    invokedOnNextTick (renderTick ([(("m" : String), SetterBehavior.ok)] ++
      (("r" : String), SetterBehavior.throws) ::
        [(("s" : String), SetterBehavior.ok)])) = [] :=
  effectThrow_aborts_frame [(("m" : String), SetterBehavior.ok)]
    [(("s" : String), SetterBehavior.ok)] ("r") (by decide)

/-- Without a play event, a paused-or-ended loop with no pending frame
performs no texture upload and no draw call. -/
theorem runLoop_no_work_without_play :
    ∀ (evs : List MediaEvent) (s : RenderLoopState),
      (s.paused = true ∨ s.ended = true) → s.pending = false →
      MediaEvent.play ∉ evs →
      (runLoop s evs).uploads = s.uploads ∧ (runLoop s evs).draws = s.draws := by
  intro evs
  induction evs with
  | nil => intro s _ _ _; exact ⟨rfl, rfl⟩
  | cons ev rest ih =>
      intro s hp hpend hnp
      simp only [List.mem_cons, not_or] at hnp
      cases ev with
      | play => exact absurd rfl hnp.1
      | pause =>
          have h2 := ih (stepLoop s MediaEvent.pause) (Or.inl rfl) rfl hnp.2
          exact ⟨h2.1, h2.2⟩
      | ended =>
          have h2 := ih (stepLoop s MediaEvent.ended) (Or.inr rfl) rfl hnp.2
          exact ⟨h2.1, h2.2⟩
      | tick =>
          have hstep : stepLoop s MediaEvent.tick = s := by
            simp [stepLoop, hpend]
          have h2 := ih s hp hpend hnp.2
          constructor
          · show (runLoop (stepLoop s MediaEvent.tick) rest).uploads = s.uploads
            rw [hstep]
            exact h2.1
          · show (runLoop (stepLoop s MediaEvent.tick) rest).draws = s.draws
            rw [hstep]
            exact h2.2

/-- C4: when the source is paused (or ended), the next scheduled tick
performs zero texture uploads and zero draw calls and leaves no frame
pending, and across any further events containing no play transition the
loop performs no upload and no draw. -/
theorem paused_tick_skips_work (s : RenderLoopState) (evs : List MediaEvent)
    (hp : s.paused = true ∨ s.ended = true)
    (hnoplay : MediaEvent.play ∉ evs) :
    (stepLoop s MediaEvent.tick).uploads = s.uploads ∧
    (stepLoop s MediaEvent.tick).draws = s.draws ∧
    (stepLoop s MediaEvent.tick).pending = false ∧
    (runLoop (stepLoop s MediaEvent.tick) evs).uploads = s.uploads ∧
    (runLoop (stepLoop s MediaEvent.tick) evs).draws = s.draws := by
  have hpe : (s.paused || s.ended) = true := by
    rcases hp with h | h <;> simp [h]
  cases hpd : s.pending with
  | true =>
      have hstep : stepLoop s MediaEvent.tick = { s with pending := false } := by
        simp [stepLoop, hpd, hpe]
      rw [hstep]
      refine ⟨rfl, rfl, rfl, ?_, ?_⟩
      · exact (runLoop_no_work_without_play evs { s with pending := false }
          hp rfl hnoplay).1
      · exact (runLoop_no_work_without_play evs { s with pending := false }
          hp rfl hnoplay).2
  | false =>
      have hstep : stepLoop s MediaEvent.tick = s := by
        simp [stepLoop, hpd]
      rw [hstep]
      refine ⟨rfl, rfl, hpd, ?_, ?_⟩
      · exact (runLoop_no_work_without_play evs s hp hpd hnoplay).1
      · exact (runLoop_no_work_without_play evs s hp hpd hnoplay).2

/-- Witness for C4: a paused loop with a pending frame, followed by two
more ticks and a pause event, never uploads or draws. -/
theorem paused_tick_skips_work_witness :
    (stepLoop ⟨true, false, true, 3, 5⟩ MediaEvent.tick).uploads = 3 ∧
    (stepLoop ⟨true, false, true, 3, 5⟩ MediaEvent.tick).draws = 5 ∧
    (stepLoop ⟨true, false, true, 3, 5⟩ MediaEvent.tick).pending = false ∧
    (runLoop (stepLoop ⟨true, false, true, 3, 5⟩ MediaEvent.tick)
      [MediaEvent.tick, MediaEvent.pause, MediaEvent.tick]).uploads = 3 ∧
    (runLoop (stepLoop ⟨true, false, true, 3, 5⟩ MediaEvent.tick)
      [MediaEvent.tick, MediaEvent.pause, MediaEvent.tick]).draws = 5 :=
  paused_tick_skips_work ⟨true, false, true, 3, 5⟩
    [MediaEvent.tick, MediaEvent.pause, MediaEvent.tick]
    (Or.inl rfl) (by decide)
